import Mathlib

/-!
Shallow embedding of the cpa-tool quota monitor (src/monitor.py, src/backup.py,
src/config.py) and proofs about its quota-signal extraction, provider filter and
account lifecycle state machine.

Modelling conventions:
* Python strings are Lean `String` / `List Char`; regex digit class is ASCII
  `0`-`9` and the whitespace class is the ASCII part of Python's; case folding
  is ASCII `Char.toLower` (upstream messages in the claims are ASCII).
* Python floats produced by `float(m.group(1))` and the arithmetic `100 - n`
  are modelled exactly as rationals `Rat`.
* The side-effecting cycle `check_and_act` is modelled as a pure state
  transformer over an explicit state `St` plus an `Oracle` fixing the
  success/failure outcome of each remote call; the returned `List Event` is the
  trace of remote calls issued and notifications emitted.
-/

namespace CpaTool

/-- Characters matched by the regex class backslash-s (the ASCII part of
Python's whitespace class; non-ASCII whitespace is not modelled). -/
def pySpace (c : Char) : Bool :=
  c == ' ' || c == '\t' || c == '\n' || c == '\r' || c == '\x0b' || c == '\x0c'

/-- Greedy `\s*`: drop the longest run of whitespace.  In every pattern of
`_parse_quota_percent` the token after `\s*` can never match a whitespace
character, so the greedy skip is exact (no backtracking needed). -/
def dropSpaces (l : List Char) : List Char := l.dropWhile pySpace

/-- Split off the longest (greedy `\d+`-style) run of ASCII digits. -/
def splitDigits (l : List Char) : List Char × List Char :=
  (l.takeWhile Char.isDigit, l.dropWhile Char.isDigit)

/-- The text captured by the regex group `(\d+(?:\.\d+)?)`: integer digits and
(optionally empty) fractional digits. -/
structure NumCap where
  intPart : List Char
  fracPart : List Char
  deriving DecidableEq

/-- Numeric value of a run of decimal digits. -/
def digitsVal (ds : List Char) : Nat :=
  ds.foldl (fun a c => a * 10 + (c.toNat - 48)) 0

/-- Value of `float(m.group(1))` for a captured decimal literal. -/
def NumCap.val (n : NumCap) : ℚ :=
  (digitsVal n.intPart : ℚ) + (digitsVal n.fracPart : ℚ) / ((10 : ℚ) ^ n.fracPart.length)

/-- Match the group `(\d+(?:\.\d+)?)` at the head of `l`, greedily.  When a
fractional part `.ddd` is present the fraction-free alternative can never
satisfy the continuation of any of the five patterns (they all continue with
`\s*%`, `\s*:`, another literal, or the end of the pattern, and a full stop
matches none of those), so the greedy capture is the one Python's backtracking
engine would produce. -/
def capNumber (l : List Char) : Option (NumCap × List Char) :=
  let p := splitDigits l
  if p.1.isEmpty then none
  else
    match p.2 with
    | '.' :: r2 =>
      let q := splitDigits r2
      if q.1.isEmpty then some (⟨p.1, []⟩, p.2) else some (⟨p.1, q.1⟩, q.2)
    | _ => some (⟨p.1, []⟩, p.2)

/-- Case-insensitive literal match (re.IGNORECASE): on success return the rest
of the input after the literal. -/
def matchLit : List Char → List Char → Option (List Char)
  | [], l => some l
  | _ :: _, [] => none
  | c :: cs, d :: ds => if c.toLower == d.toLower then matchLit cs ds else none

/-- `re.search` semantics: try the position matcher `f` at every start
position, leftmost first (including the empty suffix at the end). -/
def searchCap (f : List Char → Option NumCap) : List Char → Option NumCap
  | [] => f []
  | c :: rest =>
    match f (c :: rest) with
    | some cap => some cap
    | none => searchCap f rest

/-- Position matcher for `(\d+(?:\.\d+)?)\s*%\s*remaining` (re.IGNORECASE). -/
def matchPctRemainingAt (l : List Char) : Option NumCap :=
  match capNumber l with
  | none => none
  | some (cap, r) =>
    match dropSpaces r with
    | '%' :: r2 =>
      match matchLit (("remaining").toList) (dropSpaces r2) with
      | some _ => some cap
      | none => none
    | _ => none

/-- Position matcher for `(\d+(?:\.\d+)?)\s*%\s*used` (re.IGNORECASE). -/
def matchPctUsedAt (l : List Char) : Option NumCap :=
  match capNumber l with
  | none => none
  | some (cap, r) =>
    match dropSpaces r with
    | '%' :: r2 =>
      match matchLit (("used").toList) (dropSpaces r2) with
      | some _ => some cap
      | none => none
    | _ => none

/-- Position matcher for `quota_remaining\s*:\s*(\d+(?:\.\d+)?)`
(re.IGNORECASE). -/
def matchQuotaKeyAt (l : List Char) : Option NumCap :=
  match matchLit (("quota_remaining").toList) l with
  | none => none
  | some r =>
    match dropSpaces r with
    | ':' :: r2 => (capNumber (dropSpaces r2)).map Prod.fst
    | _ => none

/-- Position matcher for `remaining\s*:\s*(\d+(?:\.\d+)?)\s*%?`
(re.IGNORECASE).  The trailing `\s*%?` is entirely optional, so it constrains
neither success nor the captured group and is omitted. -/
def matchRemainingColonAt (l : List Char) : Option NumCap :=
  match matchLit (("remaining").toList) l with
  | none => none
  | some r =>
    match dropSpaces r with
    | ':' :: r2 => (capNumber (dropSpaces r2)).map Prod.fst
    | _ => none

/-- Position matcher for the bare `(\d+(?:\.\d+)?)\s*%` pattern (the only one
compiled without re.IGNORECASE, which is irrelevant: it contains no letter). -/
def matchBarePctAt (l : List Char) : Option NumCap :=
  match capNumber l with
  | none => none
  | some (cap, r) =>
    match dropSpaces r with
    | '%' :: _ => some cap
    | _ => none

/-- ASCII `str.lower()`. -/
def lowerStr (s : String) : String := String.map Char.toLower s

/-- A credential record ("auth-file entry").  `entry.get(k, "") or ""` in the
source means an absent or null field behaves as `""`, so plain `String` fields
model the dictionary access. -/
structure Entry where
  name : String
  provider : String
  status : String
  status_message : String
  deriving DecidableEq

/-- Model of `monitor._parse_quota_percent`: the five regex searches in source
order, then the exhaustion-status fallback, else `None`. -/
def parse_quota_percent (e : Entry) : Option ℚ :=
  let msg := e.status_message.toList
  match searchCap matchPctRemainingAt msg with
  | some cap => some cap.val
  | none =>
    match searchCap matchPctUsedAt msg with
    | some cap => some (100 - cap.val)
    | none =>
      match searchCap matchQuotaKeyAt msg with
      | some cap => some cap.val
      | none =>
        match searchCap matchRemainingColonAt msg with
        | some cap => some cap.val
        | none =>
          match searchCap matchBarePctAt msg with
          | some cap => some cap.val
          | none =>
            if [("exhausted"), ("rate_limited"), ("quota_exceeded")].contains (lowerStr e.status) then
              some 0
            else none

/-- Bool test: does the needle occur at the head of the haystack. -/
def leadsWith : List Char → List Char → Bool
  | [], _ => true
  | _ :: _, [] => false
  | a :: as, b :: bs => a == b && leadsWith as bs

/-- Python substring containment (the `in` operator on strings): the needle
occurs contiguously somewhere in the haystack. -/
def occursIn (needle : List Char) : List Char → Bool
  | [] => needle.isEmpty
  | b :: bs => leadsWith needle (b :: bs) || occursIn needle bs

/-- Model of `monitor._matches_provider_filter`. -/
def matches_provider_filter (entry : Entry) (filters : List String) : Bool :=
  if filters.isEmpty then true
  else filters.any fun f =>
    occursIn (lowerStr f).toList (lowerStr entry.name).toList ||
    occursIn (lowerStr f).toList (lowerStr entry.provider).toList

/-- Spec-side notion, written from the specification's words for the
refinement claim about the filter: the token occurs as a case-insensitive
substring of the field. -/
def ciSubstring (needle hay : String) : Prop :=
  ∃ pre post, (lowerStr hay).toList = pre ++ (lowerStr needle).toList ++ post

/-- Configuration fields consumed by the decision core (`config.Config`);
`quota_threshold` is an `int` in the source. -/
structure Config where
  quota_threshold : ℤ
  provider_filter : List String
  dry_run : Bool
  deriving DecidableEq

/-- Trace events of one cycle: remote calls issued (whether or not they
succeed) and notifications emitted.  Notification message bodies (f-strings
embedding the quota value) are not modelled, only the title and level;
`disableAttempt` is a ghost marker recording that `check_and_act` reached the
call of `_disable_account` for a name. -/
inductive Event where
  | apiDownload : String → Event
  | apiDelete : String → Event
  | apiUpload : String → Event
  | notify : String → String → Event
  | disableAttempt : String → Event
  deriving DecidableEq

/-- Mutating remote calls (`delete_auth_file` / `upload_auth_file`); the only
other remote calls, `list_auth_files` and `download_auth_file`, are reads. -/
def isRemoteMutation : Event → Bool
  | Event.apiDelete _ => true
  | Event.apiUpload _ => true
  | _ => false

/-- Process state: the module-level `_disabled_accounts` set (as a
duplicate-free list), the `BackupManager` directory contents (association
list from name to byte content, bytes modelled as `String`), and a ghost
history variable `ghostDeleted` holding exactly the names whose
`delete_auth_file` call succeeded and whose `upload_auth_file` call has not
succeeded since.  The ghost field is written only at those two points and is
not read by the program; it makes the history notion "deleted by this system
and not yet restored" stateable. -/
structure St where
  disabled : List String
  backups : List (String × String)
  ghostDeleted : List String
  deriving DecidableEq

/-- Outcome oracle fixing the result of every remote call and of the local
backup write during one run: `download name` is the fetched content, or
`none` when `download_auth_file` raises; the Bool fields tell whether
`backup.save`, `delete_auth_file`, `upload_auth_file` and `list_auth_files`
succeed (`false` = the call raises). -/
structure Oracle where
  listOk : Bool
  download : String → Option String
  saveOk : String → Bool
  deleteOk : String → Bool
  uploadOk : String → Bool

/-- Lookup in the backup store (`BackupManager` keyed by name). -/
def backup_lookup (bs : List (String × String)) (name : String) : Option String :=
  match bs.find? (fun p => p.1 == name) with
  | some p => some p.2
  | none => none

/-- Model of `BackupManager.exists`. -/
def backup_exists (bs : List (String × String)) (name : String) : Bool :=
  (backup_lookup bs name).isSome

/-- Model of `BackupManager.load` (returns `None` exactly when no entry
exists). -/
def backup_load (bs : List (String × String)) (name : String) : Option String :=
  backup_lookup bs name

/-- Model of `BackupManager.save`: idempotent overwrite of the entry. -/
def backup_save (bs : List (String × String)) (name content : String) :
    List (String × String) :=
  (name, content) :: bs.filter (fun p => p.1 != name)

/-- Model of `BackupManager.remove`: a no-op when no entry exists. -/
def backup_remove (bs : List (String × String)) (name : String) :
    List (String × String) :=
  bs.filter (fun p => p.1 != name)

/-- Python `set.add` on the duplicate-free list model of the set. -/
def insertName (l : List String) (n : String) : List String :=
  if n ∈ l then l else l ++ [n]

/-- Model of `monitor._disable_account`.  The `try` around
`download_auth_file` + `backup.save` aborts before the delete when either
fails (a failing save is modelled as leaving the store unchanged); the `try`
around `delete_auth_file` adds the name to the set and notifies only on
success. -/
def disable_account (cfg : Config) (orc : Oracle) (s : St) (name : String) (quota : ℚ) :
    St × List Event :=
  if name ∈ s.disabled then (s, [])
  else if cfg.dry_run then (s, [Event.notify ("DRY RUN: Quota Low") ("warning")])
  else
    match orc.download name with
    | none => (s, [Event.apiDownload name])
    | some content =>
      if orc.saveOk name then
        let s1 : St := { s with backups := backup_save s.backups name content }
        if orc.deleteOk name then
          ({ s1 with disabled := insertName s1.disabled name,
                     ghostDeleted := insertName s1.ghostDeleted name },
           [Event.apiDownload name, Event.apiDelete name,
            Event.notify ("Account Disabled") ("warning")])
        else (s1, [Event.apiDownload name, Event.apiDelete name])
      else (s, [Event.apiDownload name])

/-- Model of `monitor._try_reenable`. -/
def try_reenable (cfg : Config) (orc : Oracle) (s : St) (name : String) :
    St × List Event :=
  if backup_exists s.backups name = false then
    ({ s with disabled := s.disabled.erase name }, [])
  else if cfg.dry_run then (s, [])
  else
    match backup_load s.backups name with
    | none => ({ s with disabled := s.disabled.erase name }, [])
    | some _ =>
      if orc.uploadOk name then
        ({ s with disabled := s.disabled.erase name,
                  backups := backup_remove s.backups name,
                  ghostDeleted := s.ghostDeleted.erase name },
         [Event.apiUpload name, Event.notify ("Account Re-enabled") ("info")])
      else (s, [Event.apiUpload name])

/-- One iteration of the first loop of `check_and_act` over one entry,
threading the state and the accumulated trace. -/
def process_entry (cfg : Config) (orc : Oracle) (acc : St × List Event) (entry : Entry) :
    St × List Event :=
  if entry.name = "" then acc
  else if matches_provider_filter entry cfg.provider_filter = false then acc
  else
    match parse_quota_percent entry with
    | none => acc
    | some quota =>
      if quota < (cfg.quota_threshold : ℚ) then
        let r := disable_account cfg orc acc.1 entry.name quota
        (r.1, acc.2 ++ Event.disableAttempt entry.name :: r.2)
      else acc

/-- The set comprehension `active_names` (the name of every polled entry). -/
def activeNames (entries : List Entry) : List String := entries.map Entry.name

/-- One iteration of the re-enable loop of `check_and_act`: names still in
the snapshot are skipped. -/
def reenable_step (cfg : Config) (orc : Oracle) (active : List String)
    (acc : St × List Event) (name : String) : St × List Event :=
  if name ∈ active then acc
  else
    let r := try_reenable cfg orc acc.1 name
    (r.1, acc.2 ++ r.2)

/-- Model of `monitor.check_and_act`: one full monitoring cycle.  A failing
`list_auth_files` aborts the cycle; the re-enable loop iterates over the
snapshot `list(_disabled_accounts)` taken after the first loop. -/
def check_and_act (cfg : Config) (orc : Oracle) (s : St) (entries : List Entry) :
    St × List Event :=
  if orc.listOk = false then (s, [])
  else
    let active := activeNames entries
    let p1 := entries.foldl (process_entry cfg orc) (s, [])
    p1.1.disabled.foldl (reenable_step cfg orc active) p1

/-- Backup/ghost coupling: every name deleted by this system and not yet
restored has a backup.  This is the provable direction of the specification's
backup invariant. -/
def InvBackup (s : St) : Prop :=
  s.ghostDeleted.Nodup ∧ ∀ n, n ∈ s.ghostDeleted → backup_exists s.backups n = true

/-- Fixture: the empty initial state. -/
def stEmpty : St := ⟨[], [], []⟩

/-- Fixture: threshold 10, no filter, live mode. -/
def cfgA : Config := ⟨10, [], false⟩

/-- Fixture: threshold 10, no filter, dry-run mode. -/
def cfgD : Config := ⟨10, [], true⟩

/-- Fixture: every call succeeds except `delete_auth_file`. -/
def orcA : Oracle := ⟨true, fun _ => some ("blob"), fun _ => true, fun _ => false, fun _ => true⟩

/-- Fixture: every call succeeds. -/
def orcOk : Oracle := ⟨true, fun _ => some ("blob"), fun _ => true, fun _ => true, fun _ => true⟩

/-- Fixture: `download_auth_file` raises for every name. -/
def orcDown : Oracle := ⟨true, fun _ => none, fun _ => true, fun _ => true, fun _ => true⟩

/-- Fixture: an entry at 5 percent remaining quota. -/
def entryA : Entry := ⟨("a"), ("p"), (""), ("5% remaining")⟩

/-- Fixture: a state in which this system disabled `a` earlier and holds its
backup. -/
def stD : St := ⟨[("a")], [(("a"), ("b"))], [("a")]⟩

/-! Helper lemmas. -/

theorem NumCap.val_nonneg (n : NumCap) : 0 ≤ n.val := by
  unfold NumCap.val
  positivity

theorem find?_key_filter_ne {m n : String} (h : m ≠ n) (bs : List (String × String)) :
    List.find? (fun p => p.1 == m) (bs.filter (fun p => p.1 != n)) =
      List.find? (fun p => p.1 == m) bs := by
  induction bs with
  | nil => rfl
  | cons hd tl ih =>
    by_cases hk : hd.1 = n
    · have h2 : (n == m) = false := by
        simp only [beq_eq_false_iff_ne]
        exact fun e => h e.symm
      simp [List.filter_cons, hk, List.find?_cons, h2, ih]
    · by_cases hm : hd.1 = m
      · simp [List.filter_cons, hk, List.find?_cons, hm, h]
      · simp [List.filter_cons, hk, List.find?_cons, hm, ih]

theorem find?_key_filter_self (n : String) (bs : List (String × String)) :
    List.find? (fun p => p.1 == n) (bs.filter (fun p => p.1 != n)) = none := by
  induction bs with
  | nil => rfl
  | cons hd tl ih =>
    by_cases hk : hd.1 = n
    · simp [List.filter_cons, hk, ih]
    · simp [List.filter_cons, hk, List.find?_cons, ih]

theorem backup_lookup_save_self (bs : List (String × String)) (n c : String) :
    backup_lookup (backup_save bs n c) n = some c := by
  simp [backup_lookup, backup_save, List.find?_cons]

theorem backup_lookup_save_ne {m n : String} (h : m ≠ n) (bs : List (String × String))
    (c : String) : backup_lookup (backup_save bs n c) m = backup_lookup bs m := by
  have h2 : (n == m) = false := by
    simp only [beq_eq_false_iff_ne]
    exact fun e => h e.symm
  simp [backup_lookup, backup_save, List.find?_cons, h2, find?_key_filter_ne h]

theorem backup_lookup_remove_self (bs : List (String × String)) (n : String) :
    backup_lookup (backup_remove bs n) n = none := by
  unfold backup_lookup backup_remove
  rw [find?_key_filter_self]

theorem backup_lookup_remove_ne {m n : String} (h : m ≠ n) (bs : List (String × String)) :
    backup_lookup (backup_remove bs n) m = backup_lookup bs m := by
  unfold backup_lookup backup_remove
  rw [find?_key_filter_ne h]

theorem backup_exists_save_self (bs : List (String × String)) (n c : String) :
    backup_exists (backup_save bs n c) n = true := by
  simp [backup_exists, backup_lookup_save_self]

theorem backup_exists_save_of {bs : List (String × String)} {m : String} (n c : String)
    (h : backup_exists bs m = true) : backup_exists (backup_save bs n c) m = true := by
  by_cases e : m = n
  · subst e
    exact backup_exists_save_self bs m c
  · simpa [backup_exists, backup_lookup_save_ne e] using h

theorem backup_exists_remove_ne {bs : List (String × String)} {m n : String} (h : m ≠ n) :
    backup_exists (backup_remove bs n) m = backup_exists bs m := by
  simp [backup_exists, backup_lookup_remove_ne h]

theorem mem_insertName {l : List String} {n m : String} :
    m ∈ insertName l n ↔ m ∈ l ∨ m = n := by
  unfold insertName
  split
  case isTrue h =>
    constructor
    · exact Or.inl
    · rintro (hm | rfl)
      · exact hm
      · exact h
  case isFalse h => simp

theorem nodup_insertName {l : List String} (hl : l.Nodup) (n : String) :
    (insertName l n).Nodup := by
  unfold insertName
  split
  case isTrue h => exact hl
  case isFalse h =>
    rw [List.nodup_append]
    exact ⟨hl, List.nodup_singleton n, fun a ha hb => h ((List.mem_singleton.mp hb) ▸ ha)⟩

theorem invBackup_disable (cfg : Config) (orc : Oracle) (s : St) (name : String) (quota : ℚ)
    (h : InvBackup s) : InvBackup (disable_account cfg orc s name quota).1 := by
  obtain ⟨hnd, hmem⟩ := h
  unfold disable_account
  split
  · exact ⟨hnd, hmem⟩
  split
  · exact ⟨hnd, hmem⟩
  split
  · exact ⟨hnd, hmem⟩
  split
  case isTrue content heq hsave =>
    split
    case isTrue hdel =>
      refine ⟨nodup_insertName hnd name, fun n hn => ?_⟩
      rcases mem_insertName.mp hn with hn' | rfl
      · exact backup_exists_save_of name content (hmem n hn')
      · exact backup_exists_save_self s.backups n content
    case isFalse hdel =>
      refine ⟨hnd, fun n hn => ?_⟩
      exact backup_exists_save_of name content (hmem n hn)
  case isFalse content heq hsave => exact ⟨hnd, hmem⟩

theorem invBackup_reenable (cfg : Config) (orc : Oracle) (s : St) (name : String)
    (h : InvBackup s) : InvBackup (try_reenable cfg orc s name).1 := by
  obtain ⟨hnd, hmem⟩ := h
  unfold try_reenable
  split
  · exact ⟨hnd, hmem⟩
  split
  · exact ⟨hnd, hmem⟩
  split
  · exact ⟨hnd, hmem⟩
  split
  case isTrue hup =>
    refine ⟨hnd.erase name, fun n hn => ?_⟩
    have h2 := (List.Nodup.mem_erase_iff hnd).mp hn
    rw [backup_exists_remove_ne h2.1]
    exact hmem n h2.2
  case isFalse hup => exact ⟨hnd, hmem⟩

theorem invBackup_process (cfg : Config) (orc : Oracle) (acc : St × List Event) (entry : Entry)
    (h : InvBackup acc.1) : InvBackup (process_entry cfg orc acc entry).1 := by
  unfold process_entry
  split
  · exact h
  split
  · exact h
  split
  · exact h
  split
  · exact invBackup_disable _ _ _ _ _ h
  · exact h

theorem invBackup_foldl_process (cfg : Config) (orc : Oracle) (es : List Entry)
    (acc : St × List Event) (h : InvBackup acc.1) :
    InvBackup (es.foldl (process_entry cfg orc) acc).1 := by
  induction es generalizing acc with
  | nil => exact h
  | cons e t ih => exact ih _ (invBackup_process _ _ _ _ h)

theorem invBackup_reenable_step (cfg : Config) (orc : Oracle) (active : List String)
    (acc : St × List Event) (name : String) (h : InvBackup acc.1) :
    InvBackup (reenable_step cfg orc active acc name).1 := by
  unfold reenable_step
  split
  · exact h
  · exact invBackup_reenable _ _ _ _ h

theorem invBackup_foldl_reenable (cfg : Config) (orc : Oracle) (active : List String)
    (names : List String) (acc : St × List Event) (h : InvBackup acc.1) :
    InvBackup (names.foldl (reenable_step cfg orc active) acc).1 := by
  induction names generalizing acc with
  | nil => exact h
  | cons m t ih => exact ih _ (invBackup_reenable_step _ _ _ _ _ h)

theorem trace_mono_process (cfg : Config) (orc : Oracle) (acc : St × List Event) (entry : Entry)
    {x : Event} (h : x ∈ acc.2) : x ∈ (process_entry cfg orc acc entry).2 := by
  unfold process_entry
  split
  · exact h
  split
  · exact h
  split
  · exact h
  split
  · exact List.mem_append_left _ h
  · exact h

theorem trace_mono_foldl_process (cfg : Config) (orc : Oracle) (es : List Entry)
    (acc : St × List Event) {x : Event} (h : x ∈ acc.2) :
    x ∈ (es.foldl (process_entry cfg orc) acc).2 := by
  induction es generalizing acc with
  | nil => exact h
  | cons e t ih => exact ih _ (trace_mono_process _ _ _ _ h)

theorem trace_mono_reenable_step (cfg : Config) (orc : Oracle) (active : List String)
    (acc : St × List Event) (name : String) {x : Event} (h : x ∈ acc.2) :
    x ∈ (reenable_step cfg orc active acc name).2 := by
  unfold reenable_step
  split
  · exact h
  · exact List.mem_append_left _ h

theorem trace_mono_foldl_reenable (cfg : Config) (orc : Oracle) (active : List String)
    (names : List String) (acc : St × List Event) {x : Event} (h : x ∈ acc.2) :
    x ∈ (names.foldl (reenable_step cfg orc active) acc).2 := by
  induction names generalizing acc with
  | nil => exact h
  | cons m t ih => exact ih _ (trace_mono_reenable_step _ _ _ _ _ h)

theorem no_upload_disable (cfg : Config) (orc : Oracle) (s : St) (name : String) (quota : ℚ)
    (n : String) : Event.apiUpload n ∉ (disable_account cfg orc s name quota).2 := by
  unfold disable_account
  split
  · simp
  split
  · simp
  split
  · simp
  split
  · split <;> simp
  · simp

theorem upload_foldl_process (cfg : Config) (orc : Oracle) (es : List Entry)
    (acc : St × List Event) (n : String)
    (h : Event.apiUpload n ∈ (es.foldl (process_entry cfg orc) acc).2) :
    Event.apiUpload n ∈ acc.2 := by
  induction es generalizing acc with
  | nil => exact h
  | cons e t ih =>
    have h2 := ih _ h
    revert h2
    unfold process_entry
    split
    · exact id
    split
    · exact id
    split
    · exact id
    split
    · intro h2
      rcases List.mem_append.mp h2 with h3 | h3
      · exact h3
      · rcases List.mem_cons.mp h3 with h4 | h4
        · exact absurd h4 (by simp)
        · exact absurd h4 (no_upload_disable _ _ _ _ _ _)
    · exact id

theorem disabled_after_disable (cfg : Config) (orc : Oracle) (s : St) (name : String)
    (quota : ℚ) (n : String) (h : n ∈ (disable_account cfg orc s name quota).1.disabled) :
    n ∈ s.disabled ∨
      (n = name ∧ orc.deleteOk n = true ∧
        Event.apiDelete n ∈ (disable_account cfg orc s name quota).2) := by
  revert h
  unfold disable_account
  split
  · exact Or.inl
  split
  · exact Or.inl
  split
  · exact Or.inl
  split
  case isTrue content heq hsave =>
    split
    case isTrue hdel =>
      intro h
      rcases mem_insertName.mp h with h' | rfl
      · exact Or.inl h'
      · exact Or.inr ⟨rfl, hdel, by simp⟩
    case isFalse hdel => exact Or.inl
  case isFalse content heq hsave => exact Or.inl

theorem disabled_after_process (cfg : Config) (orc : Oracle) (acc : St × List Event)
    (entry : Entry) (n : String) (h : n ∈ (process_entry cfg orc acc entry).1.disabled) :
    n ∈ acc.1.disabled ∨
      (n = entry.name ∧ orc.deleteOk n = true ∧
        Event.apiDelete n ∈ (process_entry cfg orc acc entry).2) := by
  revert h
  unfold process_entry
  split
  · exact Or.inl
  split
  · exact Or.inl
  split
  · exact Or.inl
  split
  · intro h
    rcases disabled_after_disable _ _ _ _ _ _ h with h' | ⟨he, hok, hev⟩
    · exact Or.inl h'
    · exact Or.inr ⟨he, hok, List.mem_append_right _ (List.mem_cons_of_mem _ hev)⟩
  · exact Or.inl

theorem disabled_after_foldl_process (cfg : Config) (orc : Oracle) (es : List Entry)
    (acc : St × List Event) (n : String)
    (h : n ∈ (es.foldl (process_entry cfg orc) acc).1.disabled) :
    n ∈ acc.1.disabled ∨
      (n ∈ activeNames es ∧ orc.deleteOk n = true ∧
        Event.apiDelete n ∈ (es.foldl (process_entry cfg orc) acc).2) := by
  induction es generalizing acc with
  | nil => exact Or.inl h
  | cons e t ih =>
    rcases ih _ h with h2 | ⟨hact, hok, hev⟩
    · rcases disabled_after_process _ _ _ _ _ h2 with h3 | ⟨he, hok, hev⟩
      · exact Or.inl h3
      · refine Or.inr ⟨?_, hok,
          trace_mono_foldl_process cfg orc t (process_entry cfg orc acc e) hev⟩
        simp [activeNames, he]
    · refine Or.inr ⟨?_, hok, hev⟩
      simp only [activeNames, List.map_cons, List.mem_cons]
      exact Or.inr (by simpa [activeNames] using hact)

theorem upload_try_reenable (cfg : Config) (orc : Oracle) (s : St) (name : String)
    (n : String) (h : Event.apiUpload n ∈ (try_reenable cfg orc s name).2) : n = name := by
  revert h
  unfold try_reenable
  split
  · simp
  split
  · simp
  split
  · simp
  split
  · intro h
    rcases List.mem_cons.mp h with h2 | h2
    · exact Event.apiUpload.inj h2
    · exact absurd h2 (by simp)
  · intro h
    rcases List.mem_cons.mp h with h2 | h2
    · exact Event.apiUpload.inj h2
    · exact absurd h2 (by simp)

theorem disabled_after_try (cfg : Config) (orc : Oracle) (s : St) (name : String)
    (n : String) (h : n ∈ (try_reenable cfg orc s name).1.disabled) : n ∈ s.disabled := by
  revert h
  unfold try_reenable
  split
  · exact List.mem_of_mem_erase
  split
  · exact id
  split
  · exact List.mem_of_mem_erase
  split
  · exact List.mem_of_mem_erase
  · exact id

theorem upload_foldl_reenable (cfg : Config) (orc : Oracle) (active : List String)
    (names : List String) (acc : St × List Event) (n : String)
    (h : Event.apiUpload n ∈ (names.foldl (reenable_step cfg orc active) acc).2) :
    Event.apiUpload n ∈ acc.2 ∨ (n ∈ names ∧ n ∉ active) := by
  induction names generalizing acc with
  | nil => exact Or.inl h
  | cons m t ih =>
    rcases ih _ h with h2 | ⟨h3, h4⟩
    · revert h2
      unfold reenable_step
      split
      · exact Or.inl
      case isFalse hact =>
        intro h2
        rcases List.mem_append.mp h2 with h5 | h5
        · exact Or.inl h5
        · have := upload_try_reenable _ _ _ _ _ h5
          subst this
          exact Or.inr ⟨List.mem_cons_self _ _, hact⟩
    · exact Or.inr ⟨List.mem_cons_of_mem _ h3, h4⟩

theorem dry_disable_state (cfg : Config) (orc : Oracle) (s : St) (name : String) (quota : ℚ)
    (hdry : cfg.dry_run = true) : (disable_account cfg orc s name quota).1 = s := by
  unfold disable_account
  by_cases hmem : name ∈ s.disabled
  · rw [if_pos hmem]
  · rw [if_neg hmem, if_pos hdry]

theorem dry_disable_mutfree (cfg : Config) (orc : Oracle) (s : St) (name : String) (quota : ℚ)
    (hdry : cfg.dry_run = true) {ev : Event}
    (h : ev ∈ (disable_account cfg orc s name quota).2) : isRemoteMutation ev = false := by
  revert h
  unfold disable_account
  by_cases hmem : name ∈ s.disabled
  · rw [if_pos hmem]
    simp
  · rw [if_neg hmem, if_pos hdry]
    intro h
    rcases List.mem_cons.mp h with h2 | h2
    · subst h2
      rfl
    · exact absurd h2 (by simp)

theorem dry_try_reenable_events (cfg : Config) (orc : Oracle) (s : St) (name : String)
    (hdry : cfg.dry_run = true) : (try_reenable cfg orc s name).2 = [] := by
  unfold try_reenable
  by_cases hb : backup_exists s.backups name = false
  · rw [if_pos hb]
  · rw [if_neg hb, if_pos hdry]

theorem dry_process_state (cfg : Config) (orc : Oracle) (acc : St × List Event) (entry : Entry)
    (hdry : cfg.dry_run = true) : (process_entry cfg orc acc entry).1 = acc.1 := by
  unfold process_entry
  split
  · rfl
  split
  · rfl
  split
  · rfl
  split
  · exact dry_disable_state _ _ _ _ _ hdry
  · rfl

theorem dry_process_mutfree (cfg : Config) (orc : Oracle) (acc : St × List Event) (entry : Entry)
    (hdry : cfg.dry_run = true) (hacc : ∀ ev ∈ acc.2, isRemoteMutation ev = false) :
    ∀ ev ∈ (process_entry cfg orc acc entry).2, isRemoteMutation ev = false := by
  unfold process_entry
  split
  · exact hacc
  split
  · exact hacc
  split
  · exact hacc
  split
  · intro ev hev
    rcases List.mem_append.mp hev with h2 | h2
    · exact hacc ev h2
    · rcases List.mem_cons.mp h2 with h3 | h3
      · subst h3
        rfl
      · exact dry_disable_mutfree _ _ _ _ _ hdry h3
  · exact hacc

theorem dry_foldl_process_mutfree (cfg : Config) (orc : Oracle) (es : List Entry)
    (acc : St × List Event) (hdry : cfg.dry_run = true)
    (hacc : ∀ ev ∈ acc.2, isRemoteMutation ev = false) :
    ∀ ev ∈ (es.foldl (process_entry cfg orc) acc).2, isRemoteMutation ev = false := by
  induction es generalizing acc with
  | nil => exact hacc
  | cons e t ih => exact ih _ (dry_process_mutfree _ _ _ _ hdry hacc)

theorem dry_reenable_step_mutfree (cfg : Config) (orc : Oracle) (active : List String)
    (acc : St × List Event) (name : String) (hdry : cfg.dry_run = true)
    (hacc : ∀ ev ∈ acc.2, isRemoteMutation ev = false) :
    ∀ ev ∈ (reenable_step cfg orc active acc name).2, isRemoteMutation ev = false := by
  unfold reenable_step
  split
  · exact hacc
  · intro ev hev
    have hev' : ev ∈ acc.2 ++ (try_reenable cfg orc acc.1 name).2 := hev
    rw [dry_try_reenable_events _ _ _ _ hdry, List.append_nil] at hev'
    exact hacc ev hev'

theorem dry_foldl_reenable_mutfree (cfg : Config) (orc : Oracle) (active : List String)
    (names : List String) (acc : St × List Event) (hdry : cfg.dry_run = true)
    (hacc : ∀ ev ∈ acc.2, isRemoteMutation ev = false) :
    ∀ ev ∈ (names.foldl (reenable_step cfg orc active) acc).2, isRemoteMutation ev = false := by
  induction names generalizing acc with
  | nil => exact hacc
  | cons m t ih => exact ih _ (dry_reenable_step_mutfree _ _ _ _ _ hdry hacc)

theorem dry_disable_notifies (cfg : Config) (orc : Oracle) (s : St) (name : String) (quota : ℚ)
    (hdry : cfg.dry_run = true) (hmem : name ∉ s.disabled) :
    Event.notify ("DRY RUN: Quota Low") ("warning") ∈ (disable_account cfg orc s name quota).2 := by
  unfold disable_account
  rw [if_neg hmem, if_pos hdry]
  exact List.mem_cons_self _ _

theorem dry_process_notifies (cfg : Config) (orc : Oracle) (acc : St × List Event)
    (entry : Entry) (hdry : cfg.dry_run = true) (hname : ¬ entry.name = "")
    (hf : matches_provider_filter entry cfg.provider_filter = true) (q : ℚ)
    (hq : parse_quota_percent entry = some q) (hlt : q < (cfg.quota_threshold : ℚ))
    (hmem : entry.name ∉ acc.1.disabled) :
    Event.notify ("DRY RUN: Quota Low") ("warning") ∈ (process_entry cfg orc acc entry).2 := by
  unfold process_entry
  rw [if_neg hname, if_neg (by simp [hf]), hq]
  show Event.notify ("DRY RUN: Quota Low") ("warning") ∈
    (if q < (cfg.quota_threshold : ℚ) then
      ((disable_account cfg orc acc.1 entry.name q).1,
        acc.2 ++ Event.disableAttempt entry.name ::
          (disable_account cfg orc acc.1 entry.name q).2)
    else acc).2
  rw [if_pos hlt]
  exact List.mem_append_right _
    (List.mem_cons_of_mem _ (dry_disable_notifies _ _ _ _ _ hdry hmem))

theorem dry_foldl_process_notifies (cfg : Config) (orc : Oracle) (es : List Entry) (s : St)
    (evs : List Event) (e : Entry) (hdry : cfg.dry_run = true) (he : e ∈ es)
    (hname : ¬ e.name = "") (hf : matches_provider_filter e cfg.provider_filter = true)
    (q : ℚ) (hq : parse_quota_percent e = some q) (hlt : q < (cfg.quota_threshold : ℚ))
    (hmem : e.name ∉ s.disabled) :
    Event.notify ("DRY RUN: Quota Low") ("warning") ∈
      (es.foldl (process_entry cfg orc) (s, evs)).2 := by
  induction es generalizing evs with
  | nil => exact absurd he (List.not_mem_nil e)
  | cons hd t ih =>
    have hstep : process_entry cfg orc (s, evs) hd =
        (s, (process_entry cfg orc (s, evs) hd).2) := by
      have h1 := dry_process_state cfg orc (s, evs) hd hdry
      exact Prod.ext h1 rfl
    rcases List.mem_cons.mp he with rfl | ht
    · exact trace_mono_foldl_process cfg orc t _
        (dry_process_notifies cfg orc (s, evs) e hdry hname hf q hq hlt hmem)
    · show Event.notify ("DRY RUN: Quota Low") ("warning") ∈
        (t.foldl (process_entry cfg orc) (process_entry cfg orc (s, evs) hd)).2
      rw [hstep]
      exact ih _ ht

theorem leadsWith_iff (n h : List Char) : leadsWith n h = true ↔ ∃ t, h = n ++ t := by
  induction n generalizing h with
  | nil =>
    constructor
    · intro _
      exact ⟨h, by simp⟩
    · intro _
      rfl
  | cons a as ih =>
    cases h with
    | nil =>
      simp only [leadsWith]
      constructor
      · intro hf
        cases hf
      · rintro ⟨t, ht⟩
        cases ht
    | cons b bs =>
      simp only [leadsWith, Bool.and_eq_true, beq_iff_eq]
      constructor
      · rintro ⟨rfl, h2⟩
        rcases (ih bs).mp h2 with ⟨t, rfl⟩
        exact ⟨t, rfl⟩
      · rintro ⟨t, ht⟩
        rw [List.cons_append] at ht
        injection ht with h1 h2
        exact ⟨h1.symm, (ih bs).mpr ⟨t, h2⟩⟩

theorem occursIn_iff (n h : List Char) :
    occursIn n h = true ↔ ∃ pre post, h = pre ++ n ++ post := by
  induction h with
  | nil =>
    simp only [occursIn, List.isEmpty_iff]
    constructor
    · rintro rfl
      exact ⟨[], [], rfl⟩
    · rintro ⟨pre, post, hp⟩
      rcases List.append_eq_nil.mp (List.append_eq_nil.mp hp.symm).1 with ⟨-, h2⟩
      exact h2
  | cons b bs ih =>
    simp only [occursIn, Bool.or_eq_true]
    constructor
    · rintro (h1 | h1)
      · rcases (leadsWith_iff n (b :: bs)).mp h1 with ⟨t, ht⟩
        exact ⟨[], t, by simpa using ht⟩
      · rcases ih.mp h1 with ⟨pre, post, hp⟩
        exact ⟨b :: pre, post, by simp [hp]⟩
    · rintro ⟨pre, post, hp⟩
      cases pre with
      | nil =>
        exact Or.inl ((leadsWith_iff n (b :: bs)).mpr ⟨post, by simpa using hp⟩)
      | cons p ps =>
        rw [List.cons_append, List.cons_append] at hp
        injection hp with h1 h2
        exact Or.inr (ih.mpr ⟨ps, post, h2⟩)

/-! Claim theorems. -/

/-- C1 counterexample: on the record with status_message "Quota: 200%
remaining" the numeric quota extraction returns 200, a value outside the
closed interval [0, 100] and not "unknown", refuting the claimed range. -/
theorem c1_counterexample :
    parse_quota_percent ⟨("n"), ("p"), (""), ("Quota: 200% remaining")⟩ = some 200 ∧
    ¬ ((0 : ℚ) ≤ 200 ∧ (200 : ℚ) ≤ 100) := by
  constructor
  · with_unfolding_all rfl
  · with_unfolding_all decide

/-- C1 (amended): for every credential record the numeric quota extraction
returns "unknown" (none) or a numeric value, and never throws (the model is
total); every returned value is nonnegative except those produced by the
percent-used pattern, which equal 100 minus a nonnegative captured number
(so they are at most 100 but can be negative); values above 100 occur when
the message itself contains a percentage above 100. -/
theorem c1_value_structure (e : Entry) :
    parse_quota_percent e = none ∨
    (∃ q, parse_quota_percent e = some q ∧ 0 ≤ q) ∨
    (∃ cap, searchCap matchPctUsedAt e.status_message.toList = some cap ∧ 0 ≤ cap.val ∧
      parse_quota_percent e = some (100 - cap.val)) := by
  rcases h1 : searchCap matchPctRemainingAt e.status_message.toList with _ | cap1
  case some =>
    refine Or.inr (Or.inl ⟨cap1.val, ?_, NumCap.val_nonneg cap1⟩)
    simp only [parse_quota_percent]
    rw [h1]
  rcases h2 : searchCap matchPctUsedAt e.status_message.toList with _ | cap2
  case some =>
    refine Or.inr (Or.inr ⟨cap2, rfl, NumCap.val_nonneg cap2, ?_⟩)
    simp only [parse_quota_percent]
    rw [h1, h2]
  rcases h3 : searchCap matchQuotaKeyAt e.status_message.toList with _ | cap3
  case some =>
    refine Or.inr (Or.inl ⟨cap3.val, ?_, NumCap.val_nonneg cap3⟩)
    simp only [parse_quota_percent]
    rw [h1, h2, h3]
  rcases h4 : searchCap matchRemainingColonAt e.status_message.toList with _ | cap4
  case some =>
    refine Or.inr (Or.inl ⟨cap4.val, ?_, NumCap.val_nonneg cap4⟩)
    simp only [parse_quota_percent]
    rw [h1, h2, h3, h4]
  rcases h5 : searchCap matchBarePctAt e.status_message.toList with _ | cap5
  case some =>
    refine Or.inr (Or.inl ⟨cap5.val, ?_, NumCap.val_nonneg cap5⟩)
    simp only [parse_quota_percent]
    rw [h1, h2, h3, h4, h5]
  by_cases h6 :
      [("exhausted"), ("rate_limited"), ("quota_exceeded")].contains (lowerStr e.status) = true
  · refine Or.inr (Or.inl ⟨0, ?_, le_refl 0⟩)
    simp only [parse_quota_percent]
    rw [h1, h2, h3, h4, h5, if_pos h6]
  · refine Or.inl ?_
    simp only [parse_quota_percent]
    rw [h1, h2, h3, h4, h5, if_neg h6]

/-- C7 (confirmed): the ordered patterns return the first match, giving the
documented value on each of the specification's seven examples. -/
theorem c7_extraction_examples :
    parse_quota_percent ⟨("n"), ("p"), ("ok"), ("Quota: 45% remaining")⟩ = some 45 ∧
    parse_quota_percent ⟨("n"), ("p"), ("ok"), ("85% used")⟩ = some 15 ∧
    parse_quota_percent ⟨("n"), ("p"), ("ok"), ("quota_remaining: 30")⟩ = some 30 ∧
    parse_quota_percent ⟨("n"), ("p"), ("ok"), ("remaining: 10%")⟩ = some 10 ∧
    parse_quota_percent ⟨("n"), ("p"), ("ok"), ("random text 12%")⟩ = some 12 ∧
    parse_quota_percent ⟨("n"), ("p"), ("exhausted"), ("")⟩ = some 0 ∧
    parse_quota_percent ⟨("n"), ("p"), ("active"), ("no matching text")⟩ = none := by
  refine ⟨?_, ?_, ?_, ?_, ?_, ?_, ?_⟩ <;> with_unfolding_all rfl

/-- C9 (confirmed): a record matches the provider filter iff the filter list
is empty (pass-through) or at least one token occurs as a case-insensitive
substring of the record's name or provider field. -/
theorem c9_filter_characterisation (entry : Entry) (filters : List String) :
    matches_provider_filter entry filters = true ↔
      (filters = [] ∨ ∃ f, f ∈ filters ∧
        (ciSubstring f entry.name ∨ ciSubstring f entry.provider)) := by
  cases filters with
  | nil => simp [matches_provider_filter]
  | cons g gs =>
    unfold matches_provider_filter
    rw [if_neg (by simp), List.any_eq_true]
    constructor
    · rintro ⟨f, hf, hocc⟩
      refine Or.inr ⟨f, hf, ?_⟩
      rw [Bool.or_eq_true] at hocc
      rcases hocc with h1 | h1
      · exact Or.inl ((occursIn_iff _ _).mp h1)
      · exact Or.inr ((occursIn_iff _ _).mp h1)
    · rintro (hnil | ⟨f, hf, hsub⟩)
      · cases hnil
      · refine ⟨f, hf, ?_⟩
        rw [Bool.or_eq_true]
        rcases hsub with h1 | h1
        · exact Or.inl ((occursIn_iff _ _).mpr h1)
        · exact Or.inr ((occursIn_iff _ _).mpr h1)

/-- C9 witness: the empty filter list matches a concrete record. -/
theorem c9_filter_characterisation_witness :
    matches_provider_filter entryA [] = true :=
  (c9_filter_characterisation entryA []).mpr (Or.inl rfl)

/-- C10 (confirmed): within one cycle iteration, the disable transition is
reached iff the record is named, passes the filter, and its parsed remaining
quota is strictly below the threshold; in particular a record whose parsed
quota equals the threshold exactly triggers nothing. -/
theorem c10_strict_threshold (cfg : Config) (orc : Oracle) (s : St) (entry : Entry) :
    (Event.disableAttempt entry.name ∈ (process_entry cfg orc (s, []) entry).2 ↔
      (¬ entry.name = "" ∧ matches_provider_filter entry cfg.provider_filter = true ∧
        ∃ q, parse_quota_percent entry = some q ∧ q < (cfg.quota_threshold : ℚ))) ∧
    (∀ q, parse_quota_percent entry = some q → q = (cfg.quota_threshold : ℚ) →
      process_entry cfg orc (s, []) entry = (s, [])) := by
  constructor
  · unfold process_entry
    split
    next h => simp [h]
    next h =>
      split
      next h2 =>
        constructor
        · intro hmem
          exact absurd hmem (List.not_mem_nil _)
        · rintro ⟨-, h3, -⟩
          rw [h3] at h2
          cases h2
      next h2 =>
        have hf : matches_provider_filter entry cfg.provider_filter = true := by
          revert h2
          cases matches_provider_filter entry cfg.provider_filter <;> simp
        split
        next heq =>
          constructor
          · intro hmem
            exact absurd hmem (List.not_mem_nil _)
          · rintro ⟨-, -, q, hq, -⟩
            rw [heq] at hq
            cases hq
        next quota heq =>
          split
          next hlt =>
            constructor
            · intro _
              exact ⟨h, hf, quota, heq, hlt⟩
            · intro _
              exact List.mem_append_right _ (List.mem_cons_self _ _)
          next hlt =>
            constructor
            · intro hmem
              exact absurd hmem (List.not_mem_nil _)
            · rintro ⟨-, -, q, hq, hlt2⟩
              rw [heq] at hq
              injection hq with hq'
              subst hq'
              exact absurd hlt2 hlt
  · intro q hq heq
    unfold process_entry
    split
    · rfl
    split
    · rfl
    split
    · rfl
    next quota heq2 =>
      rw [hq] at heq2
      injection heq2 with h3
      subst h3
      split
      next hlt =>
        rw [heq] at hlt
        exact absurd hlt (lt_irrefl _)
      next hlt => rfl

/-- C10 witness: a concrete entry strictly below the threshold reaches the
disable transition. -/
theorem c10_strict_threshold_witness :
    Event.disableAttempt entryA.name ∈ (process_entry cfgA orcOk (stEmpty, []) entryA).2 :=
  (c10_strict_threshold cfgA orcOk stEmpty entryA).1.mpr
    ⟨by decide, rfl, NumCap.val ⟨['5'], []⟩, by with_unfolding_all rfl,
      by with_unfolding_all decide⟩

/-- C5 (confirmed): when the content fetch or the backup save fails during
the disable transition, the transition aborts — no delete call is issued and
the whole state, including the Disabled-by-us set, is unchanged, leaving the
credential for retry on a later cycle. -/
theorem c5_backup_failure_aborts (cfg : Config) (orc : Oracle) (s : St) (name : String)
    (quota : ℚ) (hdry : cfg.dry_run = false) (hmem : name ∉ s.disabled)
    (hfail : orc.download name = none ∨ orc.saveOk name = false) :
    (disable_account cfg orc s name quota).1 = s ∧
      Event.apiDelete name ∉ (disable_account cfg orc s name quota).2 := by
  unfold disable_account
  split
  next h => exact absurd h hmem
  split
  next h => exact absurd h (by simp [hdry])
  split
  next heq => exact ⟨rfl, by simp⟩
  next content heq =>
    split
    next hsave =>
      rcases hfail with hdl | hsv
      · rw [hdl] at heq
        cases heq
      · rw [hsv] at hsave
        cases hsave
    next hsave => exact ⟨rfl, by simp⟩

/-- C5 witness: with a failing download and live mode, the disable attempt
for a concrete name leaves the empty state unchanged and issues no delete. -/
theorem c5_backup_failure_aborts_witness :
    (disable_account cfgA orcDown stEmpty ("a") 5).1 = stEmpty ∧
      Event.apiDelete ("a") ∉ (disable_account cfgA orcDown stEmpty ("a") 5).2 :=
  c5_backup_failure_aborts cfgA orcDown stEmpty ("a") 5 rfl (by decide) (Or.inl rfl)

/-- C6 (confirmed): when the delete call itself fails, the name is not added
to the Disabled-by-us set (it is retried on a later cycle) and the backup
saved just before is left in place. -/
theorem c6_delete_failure_keeps_backup (cfg : Config) (orc : Oracle) (s : St) (name : String)
    (quota : ℚ) (c : String) (hdry : cfg.dry_run = false) (hmem : name ∉ s.disabled)
    (hdl : orc.download name = some c) (hsv : orc.saveOk name = true)
    (hdel : orc.deleteOk name = false) :
    (disable_account cfg orc s name quota).1.disabled = s.disabled ∧
      backup_lookup (disable_account cfg orc s name quota).1.backups name = some c := by
  have h2 : ¬ cfg.dry_run = true := by simp [hdry]
  simp [disable_account, if_neg hmem, if_neg h2, hdl, hsv, hdel, backup_lookup_save_self]

/-- C6 witness: concrete delete failure leaves the set empty and the backup
of the fetched content in place. -/
theorem c6_delete_failure_keeps_backup_witness :
    (disable_account cfgA orcA stEmpty ("a") 5).1.disabled = stEmpty.disabled ∧
      backup_lookup (disable_account cfgA orcA stEmpty ("a") 5).1.backups ("a") =
        some ("blob") :=
  c6_delete_failure_keeps_backup cfgA orcA stEmpty ("a") 5 ("blob") rfl (by decide)
    rfl rfl rfl

/-- C8 (confirmed): a re-enable attempt for a name with no backup present is
abandoned — no remote call and no notification is issued — and the name is
removed from the Disabled-by-us set, so later cycles do not retry it. -/
theorem c8_no_backup_abandons (cfg : Config) (orc : Oracle) (s : St) (name : String)
    (hnb : backup_exists s.backups name = false) (hnd : s.disabled.Nodup) :
    (try_reenable cfg orc s name).2 = [] ∧
      name ∉ (try_reenable cfg orc s name).1.disabled ∧
      (try_reenable cfg orc s name).1.disabled = s.disabled.erase name := by
  unfold try_reenable
  rw [if_pos hnb]
  exact ⟨rfl, fun h => ((List.Nodup.mem_erase_iff hnd).mp h).1 rfl, rfl⟩

/-- C8 witness: concrete abandoned re-enable for a name whose backup is
missing. -/
theorem c8_no_backup_abandons_witness :
    (try_reenable cfgA orcOk ⟨[("a")], [], []⟩ ("a")).2 = [] ∧
      ("a") ∉ (try_reenable cfgA orcOk ⟨[("a")], [], []⟩ ("a")).1.disabled ∧
      (try_reenable cfgA orcOk ⟨[("a")], [], []⟩ ("a")).1.disabled =
        ([("a")] : List String).erase ("a") :=
  c8_no_backup_abandons cfgA orcOk ⟨[("a")], [], []⟩ ("a") rfl (by decide)

theorem disabled_after_reenable_step (cfg : Config) (orc : Oracle) (active : List String)
    (acc : St × List Event) (name : String) (n : String)
    (h : n ∈ (reenable_step cfg orc active acc name).1.disabled) : n ∈ acc.1.disabled := by
  revert h
  unfold reenable_step
  split
  · exact id
  · exact disabled_after_try _ _ _ _ _

theorem disabled_after_foldl_reenable (cfg : Config) (orc : Oracle) (active : List String)
    (names : List String) (acc : St × List Event) (n : String)
    (h : n ∈ (names.foldl (reenable_step cfg orc active) acc).1.disabled) :
    n ∈ acc.1.disabled := by
  induction names generalizing acc with
  | nil => exact h
  | cons m t ih => exact disabled_after_reenable_step _ _ _ _ _ _ (ih _ h)

/-- C2 counterexample: with every call succeeding except the delete (fixture
orcA), one cycle on a low-quota entry saves the backup of a, the delete then
fails, and between cycles the backup for a exists although a was never
deleted by this system (the ghost deletion set is empty, as is the
Disabled-by-us set) — refuting the claimed "only if" direction of the
backup-existence invariant. -/
theorem c2_counterexample :
    backup_exists (check_and_act cfgA orcA stEmpty [entryA]).1.backups ("a") = true ∧
    (check_and_act cfgA orcA stEmpty [entryA]).1.ghostDeleted = [] ∧
    (check_and_act cfgA orcA stEmpty [entryA]).1.disabled = [] := by
  refine ⟨?_, ?_, ?_⟩ <;> with_unfolding_all rfl

/-- C2 (amended): a backup exists for every name that was deleted by this
system and has not been successfully restored (the backup is created before
the deletion and removed only on successful restore); the converse of the
claimed iff does not hold, because a backup whose subsequent delete call
failed is deliberately left in place for the retry — the invariant below is
preserved by every cycle. -/
theorem c2_backup_invariant (cfg : Config) (orc : Oracle) (s : St) (entries : List Entry)
    (h : InvBackup s) : InvBackup (check_and_act cfg orc s entries).1 := by
  unfold check_and_act
  split
  · exact h
  · exact invBackup_foldl_reenable _ _ _ _ _ (invBackup_foldl_process _ _ _ _ h)

/-- C2 witness: the invariant holds after a concrete cycle started from the
empty state, where it holds trivially. -/
theorem c2_backup_invariant_witness :
    InvBackup (check_and_act cfgA orcOk stEmpty [entryA]).1 :=
  c2_backup_invariant cfgA orcOk stEmpty [entryA]
    ⟨List.nodup_nil, fun n hn => absurd hn (List.not_mem_nil n)⟩

/-- C3 counterexample: in dry-run mode, starting from a state in which a was
disabled by this system and its backup exists, with a snapshot that no longer
contains a, the re-enable transition triggers, yet the cycle's trace is
empty: no notification (dry-run marked or otherwise) is emitted — refuting
the claim that every trigger condition still emits a marked notification. -/
theorem c3_counterexample :
    ("a") ∈ stD.disabled ∧ backup_exists stD.backups ("a") = true ∧
    (check_and_act cfgD orcA stD []).2 = [] := by
  refine ⟨?_, ?_, ?_⟩
  · with_unfolding_all decide
  · with_unfolding_all rfl
  · with_unfolding_all rfl

/-- C3 (amended): in dry-run mode no mutating remote call (delete or upload)
is issued anywhere in a cycle, and every record that triggers the disable
transition still produces a notification whose title carries the DRY RUN
marker; the re-enable transition, by contrast, emits no notification in
dry-run mode (see the counterexample). -/
theorem c3_dry_run (cfg : Config) (orc : Oracle) (s : St) (entries : List Entry) (e : Entry)
    (q : ℚ) (hdry : cfg.dry_run = true) (hlist : orc.listOk = true) (he : e ∈ entries)
    (hname : ¬ e.name = "") (hf : matches_provider_filter e cfg.provider_filter = true)
    (hq : parse_quota_percent e = some q) (hlt : q < (cfg.quota_threshold : ℚ))
    (hmem : e.name ∉ s.disabled) :
    (∀ ev ∈ (check_and_act cfg orc s entries).2, isRemoteMutation ev = false) ∧
      Event.notify ("DRY RUN: Quota Low") ("warning") ∈
        (check_and_act cfg orc s entries).2 := by
  unfold check_and_act
  rw [if_neg (by simp [hlist])]
  constructor
  · exact dry_foldl_reenable_mutfree _ _ _ _ _ hdry
      (dry_foldl_process_mutfree _ _ _ _ hdry
        (fun ev hev => absurd hev (List.not_mem_nil ev)))
  · exact trace_mono_foldl_reenable _ _ _ _ _
      (dry_foldl_process_notifies cfg orc entries s [] e hdry he hname hf q hq hlt hmem)

/-- C3 witness: a concrete dry-run cycle on a low-quota entry emits the DRY
RUN marked notification. -/
theorem c3_dry_run_witness :
    Event.notify ("DRY RUN: Quota Low") ("warning") ∈
      (check_and_act cfgD orcOk stEmpty [entryA]).2 :=
  (c3_dry_run cfgD orcOk stEmpty [entryA] entryA (NumCap.val ⟨['5'], []⟩) rfl rfl
    (List.mem_singleton.mpr rfl) (by decide) rfl (by with_unfolding_all rfl)
    (by with_unfolding_all decide) (by decide)).2

/-- C4 (confirmed): a re-enable upload is attempted only for names that were
already in the Disabled-by-us set when the cycle started, and a name is in
the set after a cycle only if it was already there or its delete call was
issued and succeeded during the cycle; hence a credential disabled
externally, never added by this system, is never re-enabled by it. -/
theorem c4_external_never_reenabled (cfg : Config) (orc : Oracle) (s : St)
    (entries : List Entry) :
    (∀ n, Event.apiUpload n ∈ (check_and_act cfg orc s entries).2 → n ∈ s.disabled) ∧
    (∀ n, n ∈ (check_and_act cfg orc s entries).1.disabled →
      n ∈ s.disabled ∨ (orc.deleteOk n = true ∧
        Event.apiDelete n ∈ (check_and_act cfg orc s entries).2)) := by
  unfold check_and_act
  by_cases hl : orc.listOk = false
  · rw [if_pos hl]
    exact ⟨fun n h => absurd h (List.not_mem_nil _), fun n h => Or.inl h⟩
  · rw [if_neg hl]
    constructor
    · intro n h
      rcases upload_foldl_reenable cfg orc (activeNames entries)
          (entries.foldl (process_entry cfg orc) (s, [])).1.disabled
          (entries.foldl (process_entry cfg orc) (s, [])) n h with h2 | ⟨h3, h4⟩
      · exact absurd (upload_foldl_process cfg orc entries (s, []) n h2)
          (List.not_mem_nil _)
      · rcases disabled_after_foldl_process cfg orc entries (s, []) n h3 with h5 | ⟨h6, -, -⟩
        · exact h5
        · exact absurd h6 h4
    · intro n h
      have h2 : n ∈ (entries.foldl (process_entry cfg orc) (s, [])).1.disabled :=
        disabled_after_foldl_reenable cfg orc (activeNames entries)
          (entries.foldl (process_entry cfg orc) (s, [])).1.disabled
          (entries.foldl (process_entry cfg orc) (s, [])) n h
      rcases disabled_after_foldl_process cfg orc entries (s, []) n h2 with h3 | ⟨-, hok, hev⟩
      · exact Or.inl h3
      · exact Or.inr ⟨hok, trace_mono_foldl_reenable cfg orc (activeNames entries)
          (entries.foldl (process_entry cfg orc) (s, [])).1.disabled
          (entries.foldl (process_entry cfg orc) (s, [])) hev⟩

/-- C4 witness: a concrete cycle re-enables a, which was in the Disabled-by-us
set at the start of the cycle. -/
theorem c4_external_never_reenabled_witness :
    Event.apiUpload ("a") ∈ (check_and_act cfgA orcOk stD []).2 ∧ ("a") ∈ stD.disabled :=
  ⟨by with_unfolding_all decide,
    (c4_external_never_reenabled cfgA orcOk stD []).1 ("a") (by with_unfolding_all decide)⟩

end CpaTool
